/-
  Verification of the document-versioning and RAG pipeline core of the
  llm-rag-pro repository, as a shallow embedding in Lean 4.

  The embedding translates the relevant Python functions from
  vectorstore_utils.py, db_models.py, document_manager.py,
  performance_optimizer.py and rag_utils.py into executable Lean
  definitions.  The registry (SQLAlchemy rows) becomes a list of records,
  the on-disk FAISS stores become an association list from paths to either
  a loadable chunk list or a load error, and the external embedding / LLM
  services are abstracted as function parameters.
-/
import Mathlib

/-! ## Basic string utilities (models of the Python string operations used) -/

/-- Model of Python list-prefix testing on character lists. -/
def startsWithChars : List Char → List Char → Bool
  | [], _ => true
  | _ :: _, [] => false
  | a :: as, b :: bs => a = b && startsWithChars as bs

/-- Model of Python substring containment (`pat in s`) on character lists. -/
def containsChars (pat : List Char) : List Char → Bool
  | [] => pat.isEmpty
  | c :: rest => startsWithChars pat (c :: rest) || containsChars pat rest

/-- `pat` occurs as a substring of `s` (Python `pat in s`). -/
def strContainsSub (s pat : String) : Bool :=
  containsChars pat.data s.data

/-- `s` ends with `t` (used to state that an answer ends with a disclaimer). -/
def strEndsWith (s t : String) : Bool :=
  t.data.length ≤ s.data.length && (s.data.drop (s.data.length - t.data.length) = t.data)

/-- Model of Python `str.lower()` (character-wise lowering). -/
def lowerStr (s : String) : String := String.mk (s.data.map Char.toLower)

def splitWsGo : List Char → List Char → List String
  | [], acc => if acc.isEmpty then [] else [String.mk acc.reverse]
  | c :: rest, acc =>
    if c.isWhitespace then
      (if acc.isEmpty then splitWsGo rest []
       else String.mk acc.reverse :: splitWsGo rest [])
    else splitWsGo rest (c :: acc)

/-- Model of Python `str.split()` : split on whitespace runs, no empties. -/
def splitWhitespace (s : String) : List String := splitWsGo s.data []

/-! ## Data model

The registry row `document_metadata` (db_models.py, class DocumentMetadata)
and the version log row (class DocumentVersionLog). -/

structure DocMeta where
  doc_id : String
  filename : String
  file_type : String
  category : String
  version : Nat
  chunks : Nat
  uploaded_by : String
  is_active : Bool
  vector_store_path : String
  description : String
deriving DecidableEq

structure VersionLog where
  doc_id : String
  previous_version : Nat
  new_version : Nat
  change_description : String
  changed_by : String
  changed_at : String
deriving DecidableEq

/-- A chunk as produced by `process_documents`: a text segment plus the
metadata written at vectorstore_utils.py lines 108-117. -/
structure Chunk where
  source_file : String
  file_type : String
  category : String
  doc_id : String
  version : Nat
  uploaded_by : String
  page : Option String := none
  text : String
deriving DecidableEq

instance {ε α : Type} [DecidableEq ε] [DecidableEq α] : DecidableEq (Except ε α) :=
  fun x y =>
  match x, y with
  | Except.error a, Except.error b =>
      if h : a = b then Decidable.isTrue (by rw [h])
      else Decidable.isFalse (by intro he; cases he; exact h rfl)
  | Except.error _, Except.ok _ => Decidable.isFalse (by intro h; cases h)
  | Except.ok _, Except.error _ => Decidable.isFalse (by intro h; cases h)
  | Except.ok a, Except.ok b =>
      if h : a = b then Decidable.isTrue (by rw [h])
      else Decidable.isFalse (by intro he; cases he; exact h rfl)

/-- Whole-system state: registry rows (in insertion order, as the session
returns them), the version log table, and the on-disk index directories.
A filesystem entry maps a directory path to `Except.ok chunks` (directory
present, FAISS store loads to these chunks) or `Except.error e` (directory
present but `FAISS.load_local` raises).  A path absent from the list models
`os.path.exists(path) = False`. -/
structure RegistryState where
  docs : List DocMeta
  logs : List VersionLog
  fs : List (String × Except String (List Chunk))
deriving DecidableEq

def emptyState : RegistryState := ⟨[], [], []⟩

def idsOf (l : List DocMeta) : List String := l.map (fun d => d.doc_id)

/-- `os.path.exists` / `FAISS.load_local` combined: look up a directory. -/
def fsLookup : List (String × Except String (List Chunk)) → String →
    Option (Except String (List Chunk))
  | [], _ => none
  | (p, v) :: rest, q => if p = q then some v else fsLookup rest q

/-- `shutil.rmtree(path)` : remove every entry at the path. -/
def fsErase (fs : List (String × Except String (List Chunk))) (p : String) :
    List (String × Except String (List Chunk)) :=
  fs.filter (fun e => e.1 ≠ p)

/-! ## Registry operations (db_models.py DBManager, document_manager.py) -/

/-- `DBManager.get_documents_by_category` (db_models.py lines 305-310):
rows with the given category that are active. -/
def get_documents_by_category (s : RegistryState) (category : String) : List DocMeta :=
  s.docs.filter (fun d => d.category == category && d.is_active)

/-- `DBManager.get_active_documents` (db_models.py lines 301-303). -/
def get_active_documents (s : RegistryState) : List DocMeta :=
  s.docs.filter (fun d => d.is_active)

/-- `DocumentManager.update_document_status` (document_manager.py lines
145-162): `.first()` row with the doc_id, set `is_active`, commit.
Returns the updated list and whether a row was found. -/
def update_document_status : List DocMeta → String → Bool → List DocMeta × Bool
  | [], _, _ => ([], false)
  | d :: rest, i, b =>
    if d.doc_id == i then ({ d with is_active := b } :: rest, true)
    else
      let r := update_document_status rest i b
      (d :: r.1, r.2)

/-- document_manager.py line 217 evaluates `datetime.datetime.utcnow()`
although line 8 imports `from datetime import datetime`, so `datetime` is
the class and has no `datetime` attribute: the expression raises
`AttributeError` before the log row is constructed. -/
def utcnowOnDatetimeClass : Except String String :=
  Except.error "AttributeError: type object has no attribute datetime"

/-- `DocumentManager.create_document_version_log` (document_manager.py lines
200-226).  Building the row evaluates `datetime.datetime.utcnow()` which
raises (see `utcnowOnDatetimeClass`); the broad `except` clause rolls the
session back and returns `False`, so no row is ever added. -/
def create_document_version_log (s : RegistryState) (d : String)
    (prev nxt : Nat) (cdesc changer : String) : RegistryState × Bool :=
  match utcnowOnDatetimeClass with
  | Except.error _ => (s, false)
  | Except.ok ts =>
      let entry : VersionLog :=
        { doc_id := d, previous_version := prev, new_version := nxt,
          change_description := cdesc, changed_by := changer, changed_at := ts }
      ({ s with logs := s.logs ++ [entry] }, true)

/-- The loop of vectorstore_utils.py lines 78-83: scan the category's
active documents, keeping the highest version seen (strict `>`) among rows
with the same filename, together with that row's doc_id. -/
def findStep (filename : String) (acc : Nat × Option String) (d : DocMeta) :
    Nat × Option String :=
  if d.filename == filename && acc.1 < d.version then (d.version, some d.doc_id)
  else acc

def findExisting (category_docs : List DocMeta) (filename : String) :
    Nat × Option String :=
  category_docs.foldl (findStep filename) (0, none)

/-- Input of one upload event: the file plus the fresh identifiers drawn at
vectorstore_utils.py lines 102-105 (`uuid.uuid4()` for `doc_id` and for
the per-version index directory). -/
structure UploadInput where
  filename : String
  category : Option String
  description : Option String
  username : String
  file_type : String
  doc_id : String
  vector_store_path : String
  chunkTexts : List String
deriving DecidableEq

/-- The chunk list built at vectorstore_utils.py lines 99-119. -/
def mkUploadChunks (u : UploadInput) (v : Nat) : List Chunk :=
  u.chunkTexts.map (fun t =>
    ({ source_file := u.filename, file_type := u.file_type,
       category := u.category.getD "기타", doc_id := u.doc_id, version := v,
       uploaded_by := u.username, text := t } : Chunk))

/-- The registry row built at vectorstore_utils.py lines 122-134. -/
def mkUploadRow (u : UploadInput) (v : Nat) : DocMeta :=
  { doc_id := u.doc_id, filename := u.filename, file_type := u.file_type,
    category := u.category.getD "기타", version := v,
    chunks := u.chunkTexts.length, uploaded_by := u.username,
    is_active := true, vector_store_path := u.vector_store_path,
    description := u.description.getD "" }

/-- Per-file body of `process_documents` (vectorstore_utils.py lines
57-166 and the per-file persistence at lines 194-202), for the case where
a document manager is configured:

* look up the category's active documents and find the highest existing
  version of the same filename (lines 67-84);
* `new_version = existing_version + 1` (line 86);
* tag every chunk with the metadata of lines 108-117;
* `add_document` writes the registry row with `is_active = True`
  (lines 122-140);
* if an existing version was found, `create_document_version_log` is
  called and then the previous version is deactivated (lines 142-154);
* the per-version FAISS store is saved under the fresh path (lines
  194-202; nothing is saved when the file produced no chunks). -/
def uploadDocument (s : RegistryState) (u : UploadInput) : RegistryState :=
  let cat := u.category.getD "기타"
  let category_docs := get_documents_by_category s cat
  let ex := findExisting category_docs u.filename
  let new_version := ex.1 + 1
  let chunks := mkUploadChunks u new_version
  let row := mkUploadRow u new_version
  let s1 : RegistryState := { s with docs := s.docs ++ [row] }
  let s2 : RegistryState :=
    match ex.2 with
    | some prevId =>
        if 0 < ex.1 then
          let cdesc := "새 버전 업로드 - " ++ u.description.getD "설명 없음"
          let s' := (create_document_version_log s1 u.doc_id ex.1 new_version
            cdesc u.username).1
          { s' with docs := (update_document_status s'.docs prevId false).1 }
        else s1
    | none => s1
  if u.chunkTexts.isEmpty then s2
  else { s2 with fs := s2.fs ++ [(u.vector_store_path, Except.ok chunks)] }

/-- Sequential uploads (repeated calls of the per-file body). -/
def uploadSeq (s : RegistryState) : List UploadInput → RegistryState
  | [] => s
  | u :: us => uploadSeq (uploadDocument s u) us

/-- All registry rows of one (filename, category) document family. -/
def familyDocs (s : RegistryState) (fn cat : String) : List DocMeta :=
  s.docs.filter (fun d => d.filename == fn && d.category == cat)

/-- The (version, is_active) projection of a family, in row order. -/
def famSnapshot (s : RegistryState) (fn cat : String) : List (Nat × Bool) :=
  (familyDocs s fn cat).map (fun d => (d.version, d.is_active))

/-- Expected family shape after `k` sequential uploads: versions `1..k` in
order, all inactive except the last. -/
def famExpected : Nat → List (Nat × Bool)
  | 0 => []
  | k + 1 => (famExpected k).map (fun p => (p.1, false)) ++ [(k + 1, true)]

/-- Largest version among the *active* rows of a family (0 when none):
what the code's running-max loop actually computes. -/
def maxActiveFamilyVersion (s : RegistryState) (fn cat : String) : Nat :=
  (((s.docs.filter (fun d =>
      d.filename == fn && d.category == cat && d.is_active)).map
        (fun d => d.version)).foldl max 0)

/-- Modelled from the claim text (refinement comparison only): version rule
`1 + max(version of existing records with same filename+category, default
0)` over ALL records of the family, active or not. -/
def specVersionRule (s : RegistryState) (fn cat : String) : Nat :=
  1 + (((familyDocs s fn cat).map (fun d => d.version)).foldl max 0)

/-- `DocumentManager.delete_document` (document_manager.py lines 163-198):
`.first()` row by doc_id; `False` when absent; when `permanently` delete
the row and `shutil.rmtree` its index directory if it exists; otherwise
just set `is_active = False`. -/
def findFirstDoc : List DocMeta → String → Option DocMeta
  | [], _ => none
  | d :: rest, i => if d.doc_id == i then some d else findFirstDoc rest i

def removeFirstDoc : List DocMeta → String → List DocMeta
  | [], _ => []
  | d :: rest, i => if d.doc_id == i then rest else d :: removeFirstDoc rest i

def delete_document (s : RegistryState) (i : String) (permanently : Bool) :
    RegistryState × Bool :=
  match findFirstDoc s.docs i with
  | none => (s, false)
  | some d =>
    if permanently then
      let fs' := if d.vector_store_path ≠ "" && (fsLookup s.fs d.vector_store_path).isSome
        then fsErase s.fs d.vector_store_path else s.fs
      ({ s with docs := removeFirstDoc s.docs i, fs := fs' }, true)
    else
      ({ s with docs := (update_document_status s.docs i false).1 }, true)

/-! ## Combined-index rebuild (vectorstore_utils.py `load_vectorstores`) -/

/-- The merge loop of vectorstore_utils.py lines 235-255: for each active
document, if its `vector_store_path` is truthy and exists, try to load it;
on success merge (`merge_from` unions the vectors, modelled as append), on
failure record a warning naming the document and continue; a missing path
is skipped without any warning. -/
def loadLoop (fs : List (String × Except String (List Chunk))) :
    List DocMeta → Option (List Chunk) → List String →
    Option (List Chunk) × List String
  | [], acc, ws => (acc, ws)
  | d :: rest, acc, ws =>
    if d.vector_store_path ≠ "" then
      match fsLookup fs d.vector_store_path with
      | some (Except.ok cs) =>
          loadLoop fs rest
            (some (match acc with | none => cs | some l => l ++ cs)) ws
      | some (Except.error _) => loadLoop fs rest acc (ws ++ [d.filename])
      | none => loadLoop fs rest acc ws
    else loadLoop fs rest acc ws

/-- `load_vectorstores` (vectorstore_utils.py lines 214-257): `None` when
there are no active documents, otherwise the merge loop over them.  The
second component collects the filenames for which `st.warning` fired. -/
def load_vectorstores (s : RegistryState) : Option (List Chunk) × List String :=
  let documents := get_active_documents s
  if documents.isEmpty then (none, [])
  else loadLoop s.fs documents none []

/-- The chunks of the rebuilt combined index (empty when it is `None`). -/
def optChunks : Option (List Chunk) → List Chunk
  | none => []
  | some l => l

/-- The chunks a document contributes to the merge: its store's contents
when the path is truthy, present and readable, else nothing. -/
def okChunksOf (fs : List (String × Except String (List Chunk))) (d : DocMeta) :
    List Chunk :=
  if d.vector_store_path ≠ "" then
    match fsLookup fs d.vector_store_path with
    | some (Except.ok cs) => cs
    | _ => []
  else []

/-- The document's store directory exists but fails to load. -/
def loadFails (fs : List (String × Except String (List Chunk))) (d : DocMeta) :
    Bool :=
  d.vector_store_path ≠ "" &&
    match fsLookup fs d.vector_store_path with
    | some (Except.error _) => true
    | _ => false

/-- The document's store directory exists and loads. -/
def loadsOk (fs : List (String × Except String (List Chunk))) (d : DocMeta) :
    Bool :=
  d.vector_store_path ≠ "" &&
    match fsLookup fs d.vector_store_path with
    | some (Except.ok _) => true
    | _ => false

/-- Characterization used by the amended C6 claim: chunks of the active
documents whose store is present and readable, in document order. -/
def readableChunks (s : RegistryState) : List Chunk :=
  (get_active_documents s).flatMap (okChunksOf s.fs)

/-- Whether at least one active document's store loads successfully. -/
def hasOkStore (s : RegistryState) : Bool :=
  (get_active_documents s).any (loadsOk s.fs)

/-- Characterization used by the amended C6 claim: one warning (the
document's filename) per active document whose store directory exists but
fails to load; none for missing directories. -/
def loadFailWarnings (s : RegistryState) : List String :=
  ((get_active_documents s).filter (loadFails s.fs)).map (fun d => d.filename)

/-! ## Re-ranking retrieval (performance_optimizer.py) -/

/-- A value of a LangChain `Document.metadata` dict entry (the repository
stores strings and the integer `version`). -/
inductive MetaVal
  | str : String → MetaVal
  | num : Nat → MetaVal
deriving DecidableEq

/-- A candidate document as seen by `improved_vector_search`:
`page_content` plus a metadata dict (association list, insertion order). -/
structure SearchDoc where
  page_content : String
  metadata : List (String × MetaVal)
deriving DecidableEq

def assocMeta : List (String × MetaVal) → String → Option MetaVal
  | [], _ => none
  | (k, v) :: rest, q => if k = q then some v else assocMeta rest q

def assocStr : List (String × String) → String → Option String
  | [], _ => none
  | (k, v) :: rest, q => if k = q then some v else assocStr rest q

/-- `PerformanceOptimizer.enhance_query` (performance_optimizer.py lines
127-132) as written: `if not context: return query` and nothing after it,
so a call with a truthy context falls off the end and returns `None`
(modelled as `none`).  The function's intended remainder — including the
`category:` / `filename:` / `type:` pass-through at lines 360-361 — sits
displaced inside the `DocumentSearchOptimizer` class body and is never
part of this function. -/
def enhance_query (query : String) (context : Option String) : Option String :=
  match context with
  | none => some query
  | some c => if c = "" then some query else none

/-- Line 169: `filters and "category" in filters and
metadata.get("category") == filters["category"]`. -/
def categoryMatch (filters : Option (List (String × String)))
    (md : List (String × MetaVal)) : Bool :=
  match filters with
  | none => false
  | some fl =>
    if fl.isEmpty then false
    else
      match assocStr fl "category" with
      | none => false
      | some c => assocMeta md "category" == some (MetaVal.str c)

/-- Lowercased question words longer than 3 characters (line 177). -/
def queryWords (query : String) : List String :=
  ((splitWhitespace query).filter (fun w => 3 < w.length)).map lowerStr

/-- Line 180: how many of the query words occur (as substrings) in the
lowercased candidate text. -/
def countKeywordMatches (query content : String) : Nat :=
  ((queryWords query).filter (fun w => strContainsSub (lowerStr content) w)).length

/-- The per-candidate composite score of `improved_vector_search`
(performance_optimizer.py lines 160-184): base 1.0; when the metadata dict
is non-empty, ×1.2 on a category-filter match and ×(1 + 0.05·version) when
a `version` key is present (an integer in this repository); finally
×(1 + 0.1·keyword-matches).  Scores are exact rationals. -/
def compositeScore (filters : Option (List (String × String)))
    (query : String) (d : SearchDoc) : ℚ :=
  let base : ℚ := 1
  let withMeta :=
    if d.metadata.isEmpty then base
    else
      let s1 := if categoryMatch filters d.metadata then base * 1.2 else base
      match assocMeta d.metadata "version" with
      | some (MetaVal.num v) => s1 * (1 + (v : ℚ) * 0.05)
      | _ => s1
  withMeta * (1 + (countKeywordMatches query d.page_content : ℚ) * 0.1)

/-- Insertion into a descending-sorted scored list, placing the new element
after score ties.  Folding this over the candidates left to right computes
exactly the stable descending sort of Python's
`scored_results.sort(key=lambda x: x[1], reverse=True)`. -/
def insertScoredDesc (x : SearchDoc × ℚ) : List (SearchDoc × ℚ) → List (SearchDoc × ℚ)
  | [] => [x]
  | y :: ys => if y.2 < x.2 then x :: y :: ys else y :: insertScoredDesc x ys

def sortScoredDesc (l : List (SearchDoc × ℚ)) : List (SearchDoc × ℚ) :=
  l.foldl (fun acc x => insertScoredDesc x acc) []

/-- `PerformanceOptimizer.improved_vector_search` (performance_optimizer.py
lines 134-190).  The FAISS similarity search is the external collaborator
`simSearch`, receiving the enhanced query (possibly `none`, the Python
`None` the broken `enhance_query` produces), the metadata filters, and
`top_k * 2` (line 146).  Candidates are scored, stably sorted by
descending composite score, and truncated to `top_k`. -/
def improved_vector_search
    (simSearch : Option String → Option (List (String × String)) → Nat → List SearchDoc)
    (query : String) (context : Option String)
    (filters : Option (List (String × String))) (top_k : Nat) : List SearchDoc :=
  let enhanced_query := enhance_query query context
  let results := simSearch enhanced_query filters (top_k * 2)
  if results.isEmpty then []
  else
    let scored_results := results.map (fun d => (d, compositeScore filters query d))
    ((sortScoredDesc scored_results).take top_k).map (fun p => p.1)

/-! ## DocumentSearchOptimizer (performance_optimizer.py lines 317-354) -/

structure SearchState where
  recent_queries : List String
  query_cache : List (String × List SearchDoc)
deriving DecidableEq

/-- Python `str(filters)` for the `Optional[Dict[str, str]]` argument. -/
def filtersRepr : Option (List (String × String)) → String
  | none => "None"
  | some fl =>
    "\x7b" ++
      String.intercalate ", "
        (fl.map (fun p => "\x27" ++ p.1 ++ "\x27: \x27" ++ p.2 ++ "\x27")) ++
      "\x7d"

/-- Line 328: `cache_key = f"{query}_{str(filters)}_{k}"`. -/
def cacheKey (query : String) (filters : Option (List (String × String)))
    (k : Nat) : String :=
  query ++ "_" ++ filtersRepr filters ++ "_" ++ toString k

def cacheLookup : List (String × List SearchDoc) → String → Option (List SearchDoc)
  | [], _ => none
  | (k, v) :: rest, q => if k = q then some v else cacheLookup rest q

/-- Lines 332-335: `recent_queries.append(query)` then `pop(0)` when the
window exceeds 5 entries. -/
def rollWindow (rq : List String) (query : String) : List String :=
  if 5 < (rq ++ [query]).length then (rq ++ [query]).drop 1 else rq ++ [query]

/-- Lines 345-352: insert the result under its key, then evict the
oldest-inserted entry (`next(iter(query_cache))` — the dict's first key)
when the cache exceeds 100 entries. -/
def boundedInsert (qc : List (String × List SearchDoc)) (key : String)
    (res : List SearchDoc) : List (String × List SearchDoc) :=
  if 100 < (qc ++ [(key, res)]).length then (qc ++ [(key, res)]).drop 1
  else qc ++ [(key, res)]

/-- `DocumentSearchOptimizer.search` (lines 325-354).  The cache is a
Python dict, i.e. an insertion-ordered association list with unique keys;
on a hit the cached result is returned unchanged.  The third component
counts how many times the underlying `improved_vector_search` ran
(0 on a cache hit). -/
def optimizerSearch
    (simSearch : Option String → Option (List (String × String)) → Nat → List SearchDoc)
    (st : SearchState) (query : String)
    (filters : Option (List (String × String))) (k : Nat) :
    List SearchDoc × SearchState × Nat :=
  match cacheLookup st.query_cache (cacheKey query filters k) with
  | some res => (res, st, 0)
  | none =>
    let rq := rollWindow st.recent_queries query
    let results := improved_vector_search simSearch query
      (some (String.intercalate " " rq)) filters k
    (results, ⟨rq, boundedInsert st.query_cache (cacheKey query filters k) results⟩, 1)

/-! ## RAG pipeline (rag_utils.py) -/

structure SourceInfo where
  source : String
  page : String
  category : String
deriving DecidableEq

/-- The LangGraph `AgentState` (rag_utils.py lines 15-22). -/
structure AgentState where
  question : String
  context : List String
  answer : String
  conversation_history : List (String × String)
  sources : List SourceInfo
  need_more_info : Bool
  username : String
deriving DecidableEq

/-- `retrieve_documents` (rag_utils.py lines 24-48): with no vectorstore in
the session, context and sources are set empty; otherwise the similarity
retriever (external collaborator `rank`, returning chunks of the store in
relevance order) supplies up to `k = 5` chunks whose texts and provenance
populate the state. -/
def retrieve_documents (vectorstore : Option (List Chunk))
    (rank : String → List Chunk → List Chunk) (st : AgentState) : AgentState :=
  match vectorstore with
  | none => { st with context := [], sources := [] }
  | some chunks =>
    let docs := (rank st.question chunks).take 5
    { st with
      context := docs.map (fun c => c.text),
      sources := docs.map (fun c =>
        { source := c.source_file, page := c.page.getD "N/A",
          category := c.category }) }

def noRelevantMarker : String := "제공된 문서에서 관련 정보를 찾을 수 없습니다"

def noContextPlaceholder : String := "관련 문서가 없습니다."

/-- The generic note appended when no sources were retrieved
(rag_utils.py line 113) and when no vectorstore exists (line 234). -/
def noDocsDisclaimer : String :=
  "\n\n*참고: 보다 구체적이고 정확한 답변을 위해서는 관련 문서가 필요합니다.*"

/-- Rendering of the prior conversation turns (`str(conversation_history)`,
rag_utils.py line 93); the exact rendering is irrelevant to the claims. -/
def histRepr (hist : List (String × String)) : String :=
  "[" ++ String.intercalate ", "
    (hist.map (fun p => "(" ++ p.1 ++ ", " ++ p.2 ++ ")")) ++ "]"

/-- The filled prompt template of `generate_answer` (rag_utils.py lines
65-94). -/
def buildPrompt (hist ctx q : String) : String :=
  "당신은 기업 내부 문서에 대한 질문에 답변하는 AI 어시스턴트입니다.\n" ++
  "사용자의 질문에 대해 아래 문맥 정보를 참고하여 정확하게 답변하세요.\n" ++
  "이전 대화 기록: " ++ hist ++ "\n\n문맥 정보:\n" ++ ctx ++
  "\n\n질문: " ++ q ++ "\n\n답변:"

/-- `generate_answer` (rag_utils.py lines 50-107): joins the context with
blank lines or substitutes the no-documents placeholder, invokes the
completion service once (`complete`), and flags `need_more_info` when the
answer contains the fixed marker sentence. -/
def generate_answer (complete : String → String) (st : AgentState) : AgentState :=
  let context_text :=
    if st.context.isEmpty then noContextPlaceholder
    else String.intercalate "\n\n" st.context
  let answer := complete
    (buildPrompt (histRepr st.conversation_history) context_text st.question)
  { st with answer := answer,
            need_more_info := strContainsSub answer noRelevantMarker }

/-- `add_source_information` (rag_utils.py lines 109-136): with no sources,
append the generic disclaimer; otherwise append the citation block, one
bullet per source in retrieval order. -/
def add_source_information (st : AgentState) : AgentState :=
  if st.sources.isEmpty then
    { st with answer := st.answer ++ noDocsDisclaimer }
  else
    let sources_info := "\n\n**참고 문서:**\n" ++
      String.join (st.sources.map (fun src =>
        "- " ++ src.source ++
        (if src.page ≠ "N/A" then " (페이지: " ++ src.page ++ ")" else "") ++
        (if src.category ≠ "" then " [카테고리: " ++ src.category ++ "]" else "") ++
        "\n"))
    { st with answer := st.answer ++ sources_info }

/-- `create_rag_workflow` (rag_utils.py lines 138-157): the fixed
sequential pipeline retrieve → generate → add_sources. -/
def rag_workflow (vectorstore : Option (List Chunk))
    (rank : String → List Chunk → List Chunk)
    (complete : String → String) (st : AgentState) : AgentState :=
  add_source_information (generate_answer complete
    (retrieve_documents vectorstore rank st))

/-- The initial pipeline state built at rag_utils.py lines 180-188. -/
def initAgentState (q user : String) (hist : List (String × String)) : AgentState :=
  { question := q, context := [], answer := "", conversation_history := hist,
    sources := [], need_more_info := false, username := user }

def ragApology : String :=
  "죄송합니다. 질문 처리 중 오류가 발생했습니다. 나중에 다시 시도해주세요."

def plainApology : String :=
  "죄송합니다. 응답 생성 중 오류가 발생했습니다. 나중에 다시 시도해주세요."

/-- `generate_response` (rag_utils.py lines 160-239).  The external service
invocations are modelled as streams of outcomes: `ragRuns` are the results
successive `rag_workflow.invoke` calls would produce, `plainRuns` likewise
for the ungrounded fallback chain; the code performs at most one
invocation, counted in the second component.  On an exception the fixed
apology string is returned; in the ungrounded branch a successful response
gets the upload disclaimer appended when no vectorstore exists. -/
def generate_response (has_vectorstore has_workflow : Bool)
    (ragRuns : List (Except String AgentState))
    (plainRuns : List (Except String String)) : String × Nat :=
  if has_vectorstore && has_workflow then
    match ragRuns with
    | [] => ("", 0)
    | r :: _ =>
      match r with
      | Except.ok st => (st.answer, 1)
      | Except.error _ => (ragApology, 1)
  else
    match plainRuns with
    | [] => ("", 0)
    | r :: _ =>
      match r with
      | Except.ok resp =>
          (if has_vectorstore then resp else resp ++ noDocsDisclaimer, 1)
      | Except.error _ => (plainApology, 1)

/-! ## Concrete instances used in the theorems below -/

/-- First upload of the family ("policy.pdf", "HR"). -/
def upl1 : UploadInput :=
  ⟨"policy.pdf", some "HR", some "초판", "alice", "pdf", "id-v1", "path-v1", ["휴가 규정 1장"]⟩

/-- Second upload of the same family. -/
def upl2 : UploadInput :=
  ⟨"policy.pdf", some "HR", some "개정판", "alice", "pdf", "id-v2", "path-v2", ["휴가 규정 2장"]⟩

/-- A further upload of the same family. -/
def upl3 : UploadInput :=
  ⟨"policy.pdf", some "HR", some "재업로드", "alice", "pdf", "id-v3", "path-v3", ["휴가 규정 3장"]⟩

def stateAfterTwo : RegistryState := uploadSeq emptyState [upl1, upl2]

/-- The registry after the UI soft-deletes the active version 2
(document_manager.py line 351: `delete_document(doc_id, permanently=False)`),
leaving versions 1 and 2 both inactive. -/
def stateSoftDeleted : RegistryState := (delete_document stateAfterTwo "id-v2" false).1

/-- Re-uploading the family in that state. -/
def stateReupload : RegistryState := uploadDocument stateSoftDeleted upl3

/-- A chunk stored in the readable index of the C6 example. -/
def chunkOk : Chunk :=
  { source_file := "ok.pdf", file_type := "pdf", category := "HR",
    doc_id := "id-ok", version := 1, uploaded_by := "alice", text := "내용" }

/-- Active document whose index directory is missing from disk. -/
def docMissing : DocMeta :=
  { doc_id := "id-miss", filename := "missing.pdf", file_type := "pdf",
    category := "HR", version := 1, chunks := 1, uploaded_by := "alice",
    is_active := true, vector_store_path := "path-miss", description := "" }

/-- Active document whose index directory is present and readable. -/
def docOk : DocMeta :=
  { doc_id := "id-ok", filename := "ok.pdf", file_type := "pdf",
    category := "HR", version := 1, chunks := 1, uploaded_by := "alice",
    is_active := true, vector_store_path := "path-ok", description := "" }

/-- Registry with one missing-path version and one readable version. -/
def c6state : RegistryState :=
  ⟨[docMissing, docOk], [], [("path-ok", Except.ok [chunkOk])]⟩

/-- Candidate C1 of the re-rank scoring example: category "HR",
version 3, and 2 query-keyword matches ("leave", "policy"). -/
def c1doc : SearchDoc :=
  ⟨"the leave policy details for employees",
   [("source_file", MetaVal.str "policy.pdf"),
    ("category", MetaVal.str "HR"), ("version", MetaVal.num 3)]⟩

/-- Candidate C2 of the re-rank scoring example: category "Finance",
version 1, no keyword matches. -/
def c2doc : SearchDoc :=
  ⟨"budget report",
   [("source_file", MetaVal.str "budget.pdf"),
    ("category", MetaVal.str "Finance"), ("version", MetaVal.num 1)]⟩

def qEx : String := "What is the leave policy"

def fEx : Option (List (String × String)) := some [("category", "HR")]

/-- Two metadata-free candidates with equal composite score (tie). -/
def tieA : SearchDoc := ⟨"alpha", []⟩

def tieB : SearchDoc := ⟨"beta", []⟩

/-- Concrete collaborators for the pipeline witness. -/
def cComplete : String → String := fun _ => "일반 지식 기반 답변"

def cRank : String → List Chunk → List Chunk := fun _ _ => []

def cAgentState : AgentState := initAgentState "휴가 정책은?" "alice" []

/-- A cached entry for the optimizer witness. -/
def w10doc : SearchDoc := ⟨"캐시 결과", []⟩

def w10key : String := cacheKey "질문" none 5

def w10state : SearchState := ⟨["질문"], [(w10key, [w10doc])]⟩

def w10sim : Option String → Option (List (String × String)) → Nat → List SearchDoc :=
  fun _ _ _ => [tieA]

/-! ## Helper lemmas -/

theorem loadLoop_some (fs : List (String × Except String (List Chunk))) :
    ∀ (ds : List DocMeta) (l : List Chunk) (ws : List String),
    loadLoop fs ds (some l) ws =
      (some (l ++ ds.flatMap (okChunksOf fs)),
       ws ++ (ds.filter (loadFails fs)).map (fun d => d.filename))
  | [], l, ws => by simp [loadLoop]
  | d :: rest, l, ws => by
    by_cases hp : d.vector_store_path = ""
    · simp [loadLoop, hp, okChunksOf, loadFails, loadLoop_some fs rest l ws]
    · cases hfs : fsLookup fs d.vector_store_path with
      | none =>
        simp [loadLoop, hp, hfs, okChunksOf, loadFails, loadLoop_some fs rest l ws]
      | some v =>
        cases v with
        | ok cs =>
          simp [loadLoop, hp, hfs, okChunksOf, loadFails,
            loadLoop_some fs rest (l ++ cs) ws]
        | error e =>
          simp [loadLoop, hp, hfs, okChunksOf, loadFails,
            loadLoop_some fs rest l (ws ++ [d.filename])]

theorem loadLoop_none (fs : List (String × Except String (List Chunk))) :
    ∀ (ds : List DocMeta) (ws : List String),
    loadLoop fs ds none ws =
      ((if ds.any (loadsOk fs) then some (ds.flatMap (okChunksOf fs)) else none),
       ws ++ (ds.filter (loadFails fs)).map (fun d => d.filename))
  | [], ws => by simp [loadLoop]
  | d :: rest, ws => by
    by_cases hp : d.vector_store_path = ""
    · simp [loadLoop, hp, okChunksOf, loadFails, loadsOk, loadLoop_none fs rest ws]
    · cases hfs : fsLookup fs d.vector_store_path with
      | none =>
        simp [loadLoop, hp, hfs, okChunksOf, loadFails, loadsOk,
          loadLoop_none fs rest ws]
      | some v =>
        cases v with
        | ok cs =>
          simp [loadLoop, hp, hfs, okChunksOf, loadFails, loadsOk,
            loadLoop_some fs rest cs ws]
        | error e =>
          simp [loadLoop, hp, hfs, okChunksOf, loadFails, loadsOk,
            loadLoop_none fs rest (ws ++ [d.filename])]

/-- Full characterization of the combined-index rebuild: the merge result
is exactly the concatenation of the readable active stores (``none`` when
none loads), and exactly the load-failure documents are warned about. -/
theorem load_vectorstores_eq (s : RegistryState) :
    load_vectorstores s =
      ((if hasOkStore s then some (readableChunks s) else none),
       loadFailWarnings s) := by
  unfold load_vectorstores
  by_cases h : (get_active_documents s).isEmpty
  · rw [List.isEmpty_iff] at h
    simp [h, hasOkStore, readableChunks, loadFailWarnings]
  · rw [List.isEmpty_iff] at h
    simp [h, loadLoop_none s.fs (get_active_documents s) [],
      hasOkStore, readableChunks, loadFailWarnings]

/-! ## Helper lemmas for the upload step -/

theorem filterTwice {α : Type} (l : List α) (p q : α → Bool) :
    (l.filter p).filter q = l.filter (fun a => p a && q a) := by
  induction l with
  | nil => rfl
  | cons a t ih =>
    by_cases hp : p a <;> by_cases hq : q a <;>
      simp [List.filter_cons, hp, hq, ih]

theorem famExpected_versions : ∀ k, (famExpected k).map Prod.fst = (List.range k).map (· + 1)
  | 0 => rfl
  | k + 1 => by
    simp only [famExpected, List.map_append, List.map_map, List.range_succ]
    rw [show (Prod.fst ∘ fun p : Nat × Bool => (p.1, false)) = Prod.fst from rfl,
      famExpected_versions k]
    simp

theorem famExpected_fst_le : ∀ k, ∀ p ∈ famExpected k, p.1 ≤ k
  | 0, p, hp => by simp [famExpected] at hp
  | k + 1, p, hp => by
    simp only [famExpected, List.mem_append, List.mem_map, List.mem_singleton] at hp
    rcases hp with ⟨q, hq, rfl⟩ | rfl
    · exact Nat.le_succ_of_le (famExpected_fst_le k q hq)
    · exact Nat.le_refl _

theorem famExpected_flag : ∀ k, ∀ p ∈ famExpected k, (p.2 = true ↔ p.1 = k)
  | 0, p, hp => by simp [famExpected] at hp
  | k + 1, p, hp => by
    simp only [famExpected, List.mem_append, List.mem_map, List.mem_singleton] at hp
    rcases hp with ⟨q, hq, rfl⟩ | rfl
    · have := famExpected_fst_le k q hq
      constructor
      · intro h; exact absurd h (by simp)
      · intro h; omega
    · simp

theorem uds_skip (l : List DocMeta) (i : String) (b : Bool)
    (h : i ∉ idsOf l) : (update_document_status l i b).1 = l := by
  induction l with
  | nil => rfl
  | cons d t ih =>
    simp only [idsOf, List.map_cons, List.mem_cons] at h
    push_neg at h
    simp only [update_document_status, beq_iff_eq]
    rw [if_neg (fun he => h.1 he.symm)]
    simp [ih (by simpa [idsOf] using h.2)]

theorem uds_ids (l : List DocMeta) (i : String) (b : Bool) :
    idsOf (update_document_status l i b).1 = idsOf l := by
  induction l with
  | nil => rfl
  | cons d t ih =>
    by_cases hd : d.doc_id = i
    · simp [update_document_status, hd, idsOf]
    · simp only [update_document_status, beq_iff_eq]
      rw [if_neg hd]
      simp [idsOf] at ih ⊢
      exact ih

theorem uds_append_left_skip (l1 l2 : List DocMeta) (i : String) (b : Bool)
    (h : i ∉ idsOf l1) :
    (update_document_status (l1 ++ l2) i b).1 = l1 ++ (update_document_status l2 i b).1 := by
  induction l1 with
  | nil => rfl
  | cons d t ih =>
    simp only [idsOf, List.map_cons, List.mem_cons] at h
    push_neg at h
    simp only [List.cons_append, update_document_status, beq_iff_eq]
    rw [if_neg (fun he => h.1 he.symm)]
    simp only [List.cons_append, List.cons.injEq, true_and]
    exact ih (by simpa [idsOf] using h.2)

theorem findFold_skip (fn : String) :
    ∀ (l : List DocMeta) (acc : Nat × Option String),
    (∀ d ∈ l, (d.filename == fn) = false) → l.foldl (findStep fn) acc = acc
  | [], acc, _ => rfl
  | d :: t, acc, h => by
    have hd := h d (by simp)
    have hstep : findStep fn acc d = acc := by simp [findStep, hd]
    rw [List.foldl_cons, hstep]
    exact findFold_skip fn t acc (fun x hx => h x (by simp [hx]))

theorem findExisting_nil (fn : String) (l : List DocMeta)
    (h : l.filter (fun d => d.filename == fn) = []) :
    findExisting l fn = (0, none) := by
  apply findFold_skip fn l (0, none)
  intro d hd
  by_contra hb
  have : d ∈ l.filter (fun d => d.filename == fn) :=
    List.mem_filter.mpr ⟨hd, by simpa using hb⟩
  simp [h] at this

theorem findExisting_single (fn : String) :
    ∀ (l : List DocMeta) (r : DocMeta),
    l.filter (fun d => d.filename == fn) = [r] → 0 < r.version →
    findExisting l fn = (r.version, some r.doc_id)
  | [], r, h, _ => by simp at h
  | d :: t, r, h, hv => by
    rw [List.filter_cons] at h
    by_cases hd : (d.filename == fn) = true
    · rw [if_pos hd] at h
      have hdr : d = r := (List.cons.injEq _ _ _ _).mp h |>.1
      have ht : t.filter (fun d => d.filename == fn) = [] :=
        (List.cons.injEq _ _ _ _).mp h |>.2
      subst hdr
      unfold findExisting
      have hstep : findStep fn (0, none) d = (d.version, some d.doc_id) := by
        simp [findStep, hd, hv]
      rw [List.foldl_cons, hstep]
      apply findFold_skip fn t _
      intro x hx
      by_contra hb
      have : x ∈ t.filter (fun d => d.filename == fn) :=
        List.mem_filter.mpr ⟨hx, by simpa using hb⟩
      simp [ht] at this
    · rw [if_neg hd] at h
      have := findExisting_single fn t r h hv
      unfold findExisting at this ⊢
      have hstep : findStep fn (0, none) d = (0, none) := by
        simp [findStep, hd]
      rw [List.foldl_cons, hstep]
      exact this

theorem idsOf_filter_nodup (l : List DocMeta) (p : DocMeta → Bool)
    (h : (idsOf l).Nodup) : (idsOf (l.filter p)).Nodup :=
  List.Nodup.sublist (List.Sublist.map _ (List.filter_sublist l)) h

theorem idsOf_mem_of_filter {l : List DocMeta} {p : DocMeta → Bool} {i : String}
    (h : i ∈ idsOf (l.filter p)) : i ∈ idsOf l := by
  simp only [idsOf, List.mem_map] at h ⊢
  obtain ⟨d, hd, rfl⟩ := h
  exact ⟨d, (List.mem_filter.mp hd).1, rfl⟩

theorem uds_filter (p : DocMeta → Bool) (hp : ∀ d c, p { d with is_active := c } = p d) :
    ∀ (l : List DocMeta) (i : String) (b : Bool), (idsOf l).Nodup →
    ((update_document_status l i b).1).filter p =
      (update_document_status (l.filter p) i b).1
  | [], _, _, _ => rfl
  | d :: t, i, b, hnd => by
    have hnd0 : (∀ x ∈ t, ¬x.doc_id = d.doc_id) ∧ (idsOf t).Nodup := by
      simpa [idsOf] using hnd
    have hnd' : (idsOf t).Nodup := hnd0.2
    have hdni : d.doc_id ∉ idsOf t := by
      simp only [idsOf, List.mem_map, not_exists]
      rintro x ⟨hx, hxe⟩
      exact hnd0.1 x hx hxe
    by_cases hd : d.doc_id = i
    · subst hd
      simp only [update_document_status, beq_self_eq_true, if_pos]
      rw [List.filter_cons, List.filter_cons]
      have hpd := hp d b
      by_cases hpdv : p d = true
      · rw [if_pos (by rw [hpd]; exact hpdv), if_pos hpdv]
        simp only [update_document_status, beq_self_eq_true, if_pos]
      · rw [if_neg (by rw [hpd]; exact hpdv), if_neg hpdv]
        rw [uds_skip _ _ _ (fun hmem => hdni (idsOf_mem_of_filter hmem))]
    · simp only [update_document_status, beq_iff_eq]
      rw [if_neg hd]
      rw [List.filter_cons, List.filter_cons]
      by_cases hpdv : p d = true
      · rw [if_pos hpdv, if_pos hpdv]
        simp only [update_document_status, beq_iff_eq]
        rw [if_neg hd]
        simp only [List.cons.injEq, true_and]
        exact uds_filter p hp t i b hnd'
      · rw [if_neg hpdv, if_neg hpdv]
        exact uds_filter p hp t i b hnd'

theorem uploadDocument_docs (s : RegistryState) (u : UploadInput) :
    (uploadDocument s u).docs =
      (let ex := findExisting
        (get_documents_by_category s (u.category.getD "기타")) u.filename
       let newdocs := s.docs ++ [mkUploadRow u (ex.1 + 1)]
       match ex.2 with
       | some prevId =>
           if 0 < ex.1 then (update_document_status newdocs prevId false).1
           else newdocs
       | none => newdocs) := by
  unfold uploadDocument
  cases hex : (findExisting
      (get_documents_by_category s (u.category.getD "기타")) u.filename).2 with
  | none =>
    simp only [hex]
    by_cases hc : u.chunkTexts.isEmpty <;> simp [hc]
  | some prevId =>
    simp only [hex]
    by_cases h0 : 0 < (findExisting
        (get_documents_by_category s (u.category.getD "기타")) u.filename).1
    · simp only [if_pos h0, create_document_version_log, utcnowOnDatetimeClass]
      by_cases hc : u.chunkTexts.isEmpty <;> simp [hc]
    · simp only [if_neg h0]
      by_cases hc : u.chunkTexts.isEmpty <;> simp [hc]

theorem uploadDocument_logs (s : RegistryState) (u : UploadInput) :
    (uploadDocument s u).logs = s.logs := by
  unfold uploadDocument
  cases hex : (findExisting
      (get_documents_by_category s (u.category.getD "기타")) u.filename).2 with
  | none =>
    simp only [hex]
    by_cases hc : u.chunkTexts.isEmpty <;> simp [hc]
  | some prevId =>
    simp only [hex]
    by_cases h0 : 0 < (findExisting
        (get_documents_by_category s (u.category.getD "기타")) u.filename).1
    · simp only [if_pos h0, create_document_version_log, utcnowOnDatetimeClass]
      by_cases hc : u.chunkTexts.isEmpty <;> simp [hc]
    · simp only [if_neg h0]
      by_cases hc : u.chunkTexts.isEmpty <;> simp [hc]

theorem catdocs_filter_fn (s : RegistryState) (fn cat : String) :
    (get_documents_by_category s cat).filter (fun d => d.filename == fn) =
      (familyDocs s fn cat).filter (fun d => d.is_active) := by
  unfold get_documents_by_category familyDocs
  rw [filterTwice, filterTwice]
  apply List.filter_congr
  intro d _
  cases h1 : (d.filename == fn) <;> cases h2 : (d.category == cat) <;>
    cases h3 : d.is_active <;> simp [h1, h2, h3]

theorem upload_step (s : RegistryState) (u : UploadInput) (fn cat : String) (k : Nat)
    (hfn : u.filename = fn) (hcat : u.category = some cat)
    (hfresh : u.doc_id ∉ idsOf s.docs) (hnd : (idsOf s.docs).Nodup)
    (hinv : famSnapshot s fn cat = famExpected k) :
    famSnapshot (uploadDocument s u) fn cat = famExpected (k + 1) ∧
    idsOf (uploadDocument s u).docs = idsOf s.docs ++ [u.doc_id] := by
  have hcat' : u.category.getD "기타" = cat := by rw [hcat]; rfl
  cases k with
  | zero =>
    have hfam : familyDocs s fn cat = [] := by
      have h := hinv
      simp only [famSnapshot, famExpected, List.map_eq_nil_iff] at h
      exact h
    have hfe : findExisting
        (get_documents_by_category s (u.category.getD "기타")) u.filename
        = (0, none) := by
      rw [hcat', hfn]
      apply findExisting_nil
      rw [catdocs_filter_fn s fn cat, hfam]
      rfl
    have hdocs : (uploadDocument s u).docs = s.docs ++ [mkUploadRow u 1] := by
      rw [uploadDocument_docs]
      simp [hfe]
    constructor
    · simp only [famSnapshot, familyDocs, hdocs, List.filter_append]
      have hrow : (fun d => d.filename == fn && d.category == cat)
          (mkUploadRow u 1) = true := by
        simp [mkUploadRow, hfn, hcat']
      simp only [List.filter_cons, hrow, List.filter_nil, if_pos]
      have : s.docs.filter (fun d => d.filename == fn && d.category == cat) = [] := hfam
      rw [this]
      simp [mkUploadRow, famExpected]
    · rw [hdocs]
      simp [idsOf, mkUploadRow]
  | succ j =>
    have hsnap : (familyDocs s fn cat).map (fun d => (d.version, d.is_active)) =
        (famExpected j).map (fun p => (p.1, false)) ++ [(j + 1, true)] := by
      have h := hinv
      rw [famSnapshot] at h
      exact h
    obtain ⟨fam1, fam2, hfam12, hfam1, hfam2⟩ := List.map_eq_append_iff.mp hsnap
    cases fam2 with
    | nil => simp at hfam2
    | cons r t2 =>
      simp only [List.map_cons, List.cons.injEq, Prod.mk.injEq,
        List.map_eq_nil_iff] at hfam2
      obtain ⟨⟨hrv, hra⟩, ht2⟩ := hfam2
      subst ht2
      have hfam1false : ∀ d ∈ fam1, d.is_active = false := by
        intro d hd
        have hmem : (d.version, d.is_active) ∈
            (famExpected j).map (fun p : Nat × Bool => (p.1, false)) := by
          rw [← hfam1]
          exact List.mem_map_of_mem _ hd
        obtain ⟨q, _, hqe⟩ := List.mem_map.mp hmem
        have := congrArg Prod.snd hqe
        simpa using this.symm
      have hactive : (familyDocs s fn cat).filter (fun d => d.is_active) = [r] := by
        rw [hfam12, List.filter_append]
        have h1 : fam1.filter (fun d => d.is_active) = [] := by
          apply List.filter_eq_nil_iff.mpr
          intro d hd
          simp [hfam1false d hd]
        rw [h1]
        simp [hra]
      have hfe : findExisting
          (get_documents_by_category s (u.category.getD "기타")) u.filename
          = (j + 1, some r.doc_id) := by
        rw [hcat', hfn]
        have := findExisting_single fn (get_documents_by_category s cat) r
          (by rw [catdocs_filter_fn s fn cat, hactive]) (by omega)
        rw [this, hrv]
      have hrmem : r ∈ s.docs := by
        have hm : r ∈ familyDocs s fn cat := by rw [hfam12]; simp
        exact (List.mem_filter.mp hm).1
      have hrne : r.doc_id ≠ u.doc_id := by
        intro he
        exact hfresh (he ▸ List.mem_map_of_mem _ hrmem)
      have hdocs : (uploadDocument s u).docs =
          (update_document_status (s.docs ++ [mkUploadRow u (j + 1 + 1)])
            r.doc_id false).1 := by
        rw [uploadDocument_docs]
        simp [hfe]
      have hids2 : idsOf (s.docs ++ [mkUploadRow u (j + 1 + 1)]) =
          idsOf s.docs ++ [u.doc_id] := by
        simp [idsOf, mkUploadRow]
      have hnd2 : (idsOf (s.docs ++ [mkUploadRow u (j + 1 + 1)])).Nodup := by
        rw [hids2]
        rw [List.nodup_append]
        refine ⟨hnd, List.nodup_singleton _, ?_⟩
        intro a ha hb
        simp only [List.mem_singleton] at hb
        subst hb
        exact hfresh ha
      have hndfam : (idsOf (familyDocs s fn cat)).Nodup := by
        unfold familyDocs
        exact idsOf_filter_nodup _ _ hnd
      have hr1 : r.doc_id ∉ idsOf fam1 := by
        rw [hfam12] at hndfam
        have : (idsOf fam1 ++ [r.doc_id]).Nodup := by
          simpa [idsOf] using hndfam
        have hdisj := (List.nodup_append.mp this).2.2
        intro hmem
        exact hdisj hmem (by simp)
      have hrow : (fun d => d.filename == fn && d.category == cat)
          (mkUploadRow u (j + 1 + 1)) = true := by
        simp [mkUploadRow, hfn, hcat']
      constructor
      · simp only [famSnapshot, familyDocs, hdocs]
        rw [uds_filter (fun d => d.filename == fn && d.category == cat)
          (fun d c => rfl) _ _ _ hnd2]
        rw [List.filter_append]
        rw [show s.docs.filter (fun d => d.filename == fn && d.category == cat)
          = familyDocs s fn cat from rfl, hfam12]
        simp only [List.filter_cons, hrow, List.filter_nil, if_pos]
        rw [List.append_assoc]
        rw [uds_append_left_skip _ _ _ _ hr1]
        have huds : (update_document_status ([r] ++ [mkUploadRow u (j + 1 + 1)])
            r.doc_id false).1 =
            { r with is_active := false } :: [mkUploadRow u (j + 1 + 1)] := by
          simp [update_document_status]
        rw [huds]
        simp only [List.map_append, List.map_cons, List.map_nil]
        rw [hfam1]
        have hexp : famExpected (j + 1 + 1) =
            ((famExpected j).map (fun p : Nat × Bool => (p.1, false))).map
              (fun p : Nat × Bool => (p.1, false)) ++
            [(j + 1, false)] ++ [(j + 1 + 1, true)] := by
          show famExpected (j + 2) = _
          rw [show famExpected (j + 2) =
            (famExpected (j + 1)).map (fun p : Nat × Bool => (p.1, false)) ++
              [(j + 2, true)] from rfl]
          rw [show famExpected (j + 1) =
            (famExpected j).map (fun p : Nat × Bool => (p.1, false)) ++
              [(j + 1, true)] from rfl]
          simp [List.map_append]
        rw [hexp]
        rw [List.map_map]
        rw [show ((fun p : Nat × Bool => (p.1, false)) ∘
          (fun p : Nat × Bool => (p.1, false))) =
          (fun p : Nat × Bool => (p.1, false)) from rfl]
        simp [mkUploadRow, hrv]
      · rw [hdocs, uds_ids, hids2]

theorem uploadSeq_fam (fn cat : String) :
    ∀ (us : List UploadInput) (s : RegistryState) (k : Nat),
    (∀ u ∈ us, u.filename = fn ∧ u.category = some cat) →
    ((idsOf s.docs) ++ us.map (fun u => u.doc_id)).Nodup →
    famSnapshot s fn cat = famExpected k →
    famSnapshot (uploadSeq s us) fn cat = famExpected (k + us.length) ∧
    idsOf (uploadSeq s us).docs = idsOf s.docs ++ us.map (fun u => u.doc_id)
  | [], s, k, _, _, hinv => by simpa [uploadSeq] using hinv
  | u :: rest, s, k, hus, hnd, hinv => by
    have hrearr : idsOf s.docs ++ (u :: rest).map (fun x => x.doc_id) =
        (idsOf s.docs ++ [u.doc_id]) ++ rest.map (fun x => x.doc_id) := by simp
    rw [hrearr] at hnd
    have hnd1 : (idsOf s.docs ++ [u.doc_id]).Nodup := (List.nodup_append.mp hnd).1
    have hndids : (idsOf s.docs).Nodup := (List.nodup_append.mp hnd1).1
    have hfresh : u.doc_id ∉ idsOf s.docs := by
      have hdisj := (List.nodup_append.mp hnd1).2.2
      intro hmem
      exact hdisj hmem (by simp)
    have hstep := upload_step s u fn cat k (hus u (by simp)).1
      (hus u (by simp)).2 hfresh hndids hinv
    have hrest := uploadSeq_fam fn cat rest (uploadDocument s u) (k + 1)
      (fun x hx => hus x (by simp [hx]))
      (by rw [hstep.2]; exact hnd)
      hstep.1
    constructor
    · rw [show uploadSeq s (u :: rest) = uploadSeq (uploadDocument s u) rest from rfl]
      rw [hrest.1]
      rw [show k + 1 + rest.length = k + (u :: rest).length from by
        simp [List.length_cons]
        omega]
    · rw [show uploadSeq s (u :: rest) = uploadSeq (uploadDocument s u) rest from rfl]
      rw [hrest.2, hstep.2]
      simp

theorem findFold_fst (fn : String) :
    ∀ (l : List DocMeta) (a : Nat) (o : Option String),
    (l.foldl (findStep fn) (a, o)).1 =
      l.foldl (fun m d => if d.filename == fn then max m d.version else m) a
  | [], _, _ => rfl
  | d :: t, a, o => by
    rw [List.foldl_cons, List.foldl_cons]
    by_cases hf : (d.filename == fn) = true
    · by_cases hv : a < d.version
      · have h1 : findStep fn (a, o) d = (d.version, some d.doc_id) := by
          simp [findStep, hf, hv]
        have h2 : max a d.version = d.version := Nat.max_eq_right (Nat.le_of_lt hv)
        rw [h1, if_pos hf, h2]
        exact findFold_fst fn t d.version (some d.doc_id)
      · have h1 : findStep fn (a, o) d = (a, o) := by
          simp [findStep, hv]
        have h2 : max a d.version = a := Nat.max_eq_left (Nat.le_of_not_lt hv)
        rw [h1, if_pos hf, h2]
        exact findFold_fst fn t a o
    · have h1 : findStep fn (a, o) d = (a, o) := by
        simp [findStep, hf]
      rw [h1, if_neg hf]
      exact findFold_fst fn t a o

theorem foldMaxFilter (fn : String) :
    ∀ (l : List DocMeta) (a : Nat),
    l.foldl (fun m d => if d.filename == fn then max m d.version else m) a =
      ((l.filter (fun d => d.filename == fn)).map (fun d => d.version)).foldl max a
  | [], _ => rfl
  | d :: t, a => by
    rw [List.foldl_cons, List.filter_cons]
    by_cases hf : (d.filename == fn) = true
    · rw [if_pos hf, if_pos hf, List.map_cons, List.foldl_cons]
      exact foldMaxFilter fn t (max a d.version)
    · rw [if_neg hf, if_neg hf]
      exact foldMaxFilter fn t a

theorem findExisting_fst_max (s : RegistryState) (fn cat : String) :
    (findExisting (get_documents_by_category s cat) fn).1 =
      maxActiveFamilyVersion s fn cat := by
  unfold findExisting maxActiveFamilyVersion
  rw [findFold_fst, foldMaxFilter, catdocs_filter_fn s fn cat]
  unfold familyDocs
  rw [filterTwice]

theorem findExisting_id_mem (fn : String) :
    ∀ (l : List DocMeta) (acc : Nat × Option String) (i : String),
    ((l.foldl (findStep fn) acc).2 = some i) → i ∈ idsOf l ∨ acc.2 = some i
  | [], acc, i, h => Or.inr h
  | d :: t, acc, i, h => by
    rw [List.foldl_cons] at h
    rcases findExisting_id_mem fn t (findStep fn acc d) i h with hm | he
    · exact Or.inl (by simp [idsOf] at hm ⊢; tauto)
    · unfold findStep at he
      by_cases hc : (d.filename == fn && acc.1 < d.version) = true
      · rw [if_pos hc] at he
        simp only [Option.some.injEq] at he
        exact Or.inl (by simp [idsOf, he])
      · rw [if_neg hc] at he
        exact Or.inr he

theorem uds_concat_ne (i : String) (b : Bool) (x : DocMeta) (hx : x.doc_id ≠ i) :
    ∀ (l : List DocMeta),
    (update_document_status (l ++ [x]) i b).1 = (update_document_status l i b).1 ++ [x]
  | [] => by
    simp [update_document_status, hx]
  | d :: t => by
    by_cases hd : d.doc_id = i
    · simp [update_document_status, hd]
    · simp only [List.cons_append, update_document_status, beq_iff_eq]
      rw [if_neg hd, if_neg hd]
      simp only [List.cons_append, List.cons.injEq, true_and]
      exact uds_concat_ne i b x hx t

theorem upload_assigns (s : RegistryState) (u : UploadInput) (fn cat : String)
    (hfn : u.filename = fn) (hcat : u.category = some cat)
    (hfresh : u.doc_id ∉ idsOf s.docs) :
    (uploadDocument s u).docs.getLast? =
      some (mkUploadRow u (maxActiveFamilyVersion s fn cat + 1)) := by
  have hcat' : u.category.getD "기타" = cat := by rw [hcat]; rfl
  have hmax : (findExisting
      (get_documents_by_category s (u.category.getD "기타")) u.filename).1 =
      maxActiveFamilyVersion s fn cat := by
    rw [hcat', hfn]
    exact findExisting_fst_max s fn cat
  rw [uploadDocument_docs]
  cases hex : (findExisting
      (get_documents_by_category s (u.category.getD "기타")) u.filename).2 with
  | none =>
    simp only [hex, hmax]
    exact List.getLast?_concat _
  | some prevId =>
    have hprev : prevId ∈ idsOf s.docs := by
      rcases findExisting_id_mem u.filename
          (get_documents_by_category s (u.category.getD "기타")) (0, none) prevId
          hex with hm | he
      · exact idsOf_mem_of_filter hm
      · simp at he
    have hne : (mkUploadRow u (maxActiveFamilyVersion s fn cat + 1)).doc_id
        ≠ prevId := by
      simp only [mkUploadRow]
      intro he
      exact hfresh (he ▸ hprev)
    simp only [hex, hmax]
    by_cases h0 : 0 < maxActiveFamilyVersion s fn cat
    · rw [if_pos h0, uds_concat_ne prevId false _ hne]
      exact List.getLast?_concat _
    · rw [if_neg h0]
      exact List.getLast?_concat _

/-! ## Claim theorems -/

/-- C1 (amended).  The upload operation assigns
`version = 1 + max(version of existing ACTIVE records with the same
filename and category, default 0)` — the appended row carries exactly that
version and is active.  Consequently, uploading N times in sequence into a
family with no prior records yields versions 1, 2, ..., N in upload order,
with exactly version N active, version numbers strictly increasing,
starting at 1, with no reuse. -/
theorem uploadSeq_version_monotonic (s0 : RegistryState) (us : List UploadInput)
    (fn cat : String)
    (hus : ∀ u ∈ us, u.filename = fn ∧ u.category = some cat)
    (hnd : ((idsOf s0.docs) ++ us.map (fun u => u.doc_id)).Nodup)
    (hfam0 : familyDocs s0 fn cat = []) :
    ((familyDocs (uploadSeq s0 us) fn cat).map (fun d => d.version) =
      (List.range us.length).map (fun i => i + 1)) ∧
    (∀ d ∈ familyDocs (uploadSeq s0 us) fn cat,
      (d.is_active = true ↔ d.version = us.length)) ∧
    ((familyDocs (uploadSeq s0 us) fn cat).map (fun d => d.version)).Nodup ∧
    List.Chain' (· < ·)
      ((familyDocs (uploadSeq s0 us) fn cat).map (fun d => d.version)) ∧
    (∀ (s : RegistryState) (u : UploadInput), u.filename = fn →
      u.category = some cat → u.doc_id ∉ idsOf s.docs →
      (uploadDocument s u).docs.getLast? =
        some (mkUploadRow u (maxActiveFamilyVersion s fn cat + 1))) := by
  have hseq := uploadSeq_fam fn cat us s0 0 hus hnd
    (by rw [famSnapshot, hfam0]; rfl)
  have hsnapN : famSnapshot (uploadSeq s0 us) fn cat = famExpected us.length := by
    have h := hseq.1
    simpa using h
  have hver : (familyDocs (uploadSeq s0 us) fn cat).map (fun d => d.version) =
      (List.range us.length).map (fun i => i + 1) := by
    have h := congrArg (List.map Prod.fst) hsnapN
    rw [famSnapshot, List.map_map] at h
    rw [show (Prod.fst ∘ fun d : DocMeta => (d.version, d.is_active)) =
      (fun d : DocMeta => d.version) from rfl] at h
    rw [h, famExpected_versions]
  refine ⟨hver, ?_, ?_, ?_, ?_⟩
  · intro d hd
    have hmem : (d.version, d.is_active) ∈ famExpected us.length := by
      rw [← hsnapN]
      exact List.mem_map_of_mem _ hd
    exact famExpected_flag us.length _ hmem
  · rw [hver]
    exact (List.nodup_range us.length).map (fun a b hab => by omega)
  · rw [hver]
    exact ((List.pairwise_lt_range us.length).map _
      (fun a b hab => by omega)).chain'
  · intro s u h1 h2 h3
    exact upload_assigns s u fn cat h1 h2 h3

/-- C1 counterexample.  The claimed rule "1 + max over EXISTING records of
the family" is false: after two uploads of ("policy.pdf", "HR") and a soft
delete of the active version 2 (a sequence of this repository's own
operations), the family rows are versions 1 and 2, both inactive; the
claim's rule demands version 3 for the next upload, but the code computes
the maximum over ACTIVE rows only and assigns version 1 again — also
breaking "no reuse". -/
theorem upload_version_rule_counterexample :
    famSnapshot stateSoftDeleted "policy.pdf" "HR" = [(1, false), (2, false)] ∧
    specVersionRule stateSoftDeleted "policy.pdf" "HR" = 3 ∧
    famSnapshot stateReupload "policy.pdf" "HR" =
      [(1, false), (2, false), (1, true)] ∧
    (stateReupload.docs.getLast?).map (fun d => d.version) = some 1 ∧
    ¬ ((familyDocs stateReupload "policy.pdf" "HR").map
      (fun d => d.version)).Nodup := by
  refine ⟨by decide, by decide, by decide, by decide, by decide⟩

/-- C1 witness: the amended theorem applied to two concrete sequential
uploads of ("policy.pdf", "HR") into an empty registry. -/
theorem uploadSeq_version_monotonic_witness :
    ((familyDocs (uploadSeq emptyState [upl1, upl2]) "policy.pdf" "HR").map
      (fun d => d.version) =
      (List.range 2).map (fun i => i + 1)) ∧
    (∀ d ∈ familyDocs (uploadSeq emptyState [upl1, upl2]) "policy.pdf" "HR",
      (d.is_active = true ↔ d.version = 2)) := by
  have h := uploadSeq_version_monotonic emptyState [upl1, upl2] "policy.pdf" "HR"
    (by decide) (by decide) (by decide)
  exact ⟨h.1, h.2.1⟩

/-- C3 (code_bug).  Re-uploading "policy.pdf" into "HR" deactivates the
prior active version 1 and activates version 2, but NO VersionLogEntry is
written: `create_document_version_log` evaluates `datetime.datetime.utcnow()`
under `from datetime import datetime`, raising AttributeError, which its
broad `except` turns into a rollback and `return False` — for every input
the function leaves the state unchanged and reports failure, so the log
table stays empty. -/
theorem reupload_writes_no_version_log :
    famSnapshot stateAfterTwo "policy.pdf" "HR" = [(1, false), (2, true)] ∧
    stateAfterTwo.logs = [] ∧
    (∀ (s : RegistryState) (d : String) (p n : Nat) (cd ch : String),
      create_document_version_log s d p n cd ch = (s, false)) := by
  exact ⟨by decide, by decide, fun s d p n cd ch => rfl⟩

theorem okChunksOf_eq_nil_of_not_loadsOk
    (fs : List (String × Except String (List Chunk))) (d : DocMeta)
    (h : loadsOk fs d = false) : okChunksOf fs d = [] := by
  unfold loadsOk at h
  unfold okChunksOf
  by_cases hp : d.vector_store_path = ""
  · simp [hp]
  · cases hfs : fsLookup fs d.vector_store_path with
    | none => simp [hp, hfs]
    | some v =>
      cases v with
      | ok cs => simp [hp, hfs] at h
      | error e => simp [hp, hfs]

theorem optChunks_load (s : RegistryState) :
    optChunks (load_vectorstores s).1 = readableChunks s := by
  rw [load_vectorstores_eq]
  by_cases h : hasOkStore s = true
  · simp [h, optChunks]
  · have h' : hasOkStore s = false := by
      cases hh : hasOkStore s
      · rfl
      · exact absurd hh h
    simp only [h', Bool.false_eq_true, if_neg, optChunks]
    symm
    unfold readableChunks
    apply List.flatMap_eq_nil_iff.mpr
    intro d hd
    apply okChunksOf_eq_nil_of_not_loadsOk
    unfold hasOkStore at h'
    have := List.any_eq_false.mp h' d hd
    cases hh : loadsOk s.fs d
    · rfl
    · exact absurd hh this

/-- C2.  Provided every on-disk store holds chunks tagged with its owning
registry row (which `process_documents` guarantees at upload time), the
rebuilt combined index contains ONLY chunks of active registry rows, ALL
chunks of every active row whose store is present and readable, and — in
particular — no chunk of a (filename, category) family version 1 once
every active row of that family has a version other than 1 (as after
uploading version 2, which deactivates version 1). -/
theorem load_vectorstores_active_only (s : RegistryState)
    (htags : ∀ d ∈ s.docs, ∀ c ∈ okChunksOf s.fs d,
      c.doc_id = d.doc_id ∧ c.version = d.version ∧
      c.category = d.category ∧ c.source_file = d.filename) :
    (∀ c ∈ optChunks (load_vectorstores s).1,
      ∃ d, d ∈ s.docs ∧ d.is_active = true ∧ c.doc_id = d.doc_id ∧
        c.version = d.version) ∧
    (∀ d ∈ s.docs, d.is_active = true →
      ∀ c ∈ okChunksOf s.fs d, c ∈ optChunks (load_vectorstores s).1) ∧
    (∀ fn cat, (∀ d ∈ s.docs, d.is_active = true → d.filename = fn →
        d.category = cat → d.version ≠ 1) →
      ∀ c ∈ optChunks (load_vectorstores s).1,
        c.source_file = fn → c.category = cat → c.version ≠ 1) := by
  have hmem : ∀ c, c ∈ optChunks (load_vectorstores s).1 ↔
      ∃ d, d ∈ get_active_documents s ∧ c ∈ okChunksOf s.fs d := by
    intro c
    rw [optChunks_load]
    unfold readableChunks
    simp [List.mem_flatMap]
  refine ⟨?_, ?_, ?_⟩
  · intro c hc
    obtain ⟨d, hd, hcd⟩ := (hmem c).mp hc
    have hdd := List.mem_filter.mp hd
    have ht := htags d hdd.1 c hcd
    exact ⟨d, hdd.1, by simpa using hdd.2, ht.1, ht.2.1⟩
  · intro d hd hact c hc
    apply (hmem c).mpr
    exact ⟨d, List.mem_filter.mpr ⟨hd, by simp [hact]⟩, hc⟩
  · intro fn cat hv c hc hsf hcat
    obtain ⟨d, hd, hcd⟩ := (hmem c).mp hc
    have hdd := List.mem_filter.mp hd
    have ht := htags d hdd.1 c hcd
    have hver := hv d hdd.1 (by simpa using hdd.2)
      (by rw [← ht.2.2.2, hsf]) (by rw [← ht.2.2.1, hcat])
    rw [ht.2.1]
    exact hver

/-- C2 witness: the theorem applied to the registry after two uploads of
("policy.pdf", "HR"); active version 2's chunks are in the combined index
and no version-1 chunk of that family can be. -/
theorem load_vectorstores_active_only_witness :
    (∀ c ∈ optChunks (load_vectorstores stateAfterTwo).1,
      ∃ d, d ∈ stateAfterTwo.docs ∧ d.is_active = true ∧ c.doc_id = d.doc_id ∧
        c.version = d.version) ∧
    (∀ fn cat, (∀ d ∈ stateAfterTwo.docs, d.is_active = true → d.filename = fn →
        d.category = cat → d.version ≠ 1) →
      ∀ c ∈ optChunks (load_vectorstores stateAfterTwo).1,
        c.source_file = fn → c.category = cat → c.version ≠ 1) := by
  have h := load_vectorstores_active_only stateAfterTwo (by decide)
  exact ⟨h.1, h.2.2⟩

/-- C6 (amended).  During a rebuild a version whose store directory exists
but fails to load is skipped with a warning, while a version whose
directory is MISSING is skipped silently — no warning; the combined index
is built from the remaining readable versions in both cases. -/
theorem load_vectorstores_skip_semantics (s : RegistryState) :
    (load_vectorstores s).2 = loadFailWarnings s ∧
    optChunks (load_vectorstores s).1 = readableChunks s ∧
    (∀ d ∈ get_active_documents s,
      fsLookup s.fs d.vector_store_path = none → loadFails s.fs d = false) := by
  refine ⟨?_, optChunks_load s, ?_⟩
  · rw [load_vectorstores_eq]
  · intro d _ hnone
    unfold loadFails
    rw [hnone]
    simp

/-- C6 counterexample.  A registry with an active version whose index
directory is missing ("path-miss") and an active readable version: the
rebuild produces the readable version's chunks but logs NO warning,
contradicting the claim that a missing path is warned about. -/
theorem load_vectorstores_missing_path_counterexample :
    (load_vectorstores c6state).1 = some [chunkOk] ∧
    (load_vectorstores c6state).2 = [] := by
  exact ⟨by decide, by decide⟩

theorem findFirstDoc_mem : ∀ (l : List DocMeta) (i : String) (d : DocMeta),
    findFirstDoc l i = some d → d ∈ l ∧ d.doc_id = i
  | [], _, _, h => by simp [findFirstDoc] at h
  | x :: t, i, d, h => by
    by_cases hx : x.doc_id = i
    · simp only [findFirstDoc, beq_iff_eq] at h
      rw [if_pos hx] at h
      cases h
      exact ⟨by simp, hx⟩
    · simp only [findFirstDoc, beq_iff_eq] at h
      rw [if_neg hx] at h
      have := findFirstDoc_mem t i d h
      exact ⟨by simp [this.1], this.2⟩

theorem removeFirstDoc_length : ∀ (l : List DocMeta) (i : String) (d : DocMeta),
    findFirstDoc l i = some d → (removeFirstDoc l i).length + 1 = l.length
  | [], _, _, h => by simp [findFirstDoc] at h
  | x :: t, i, d, h => by
    by_cases hx : x.doc_id = i
    · simp [removeFirstDoc, hx]
    · simp only [findFirstDoc, beq_iff_eq] at h
      rw [if_neg hx] at h
      simp only [removeFirstDoc, beq_iff_eq]
      rw [if_neg hx]
      simp only [List.length_cons]
      rw [← removeFirstDoc_length t i d h]

theorem removeFirstDoc_not_mem : ∀ (l : List DocMeta) (i : String),
    (idsOf l).Nodup → i ∉ idsOf (removeFirstDoc l i)
  | [], i, _ => by simp [removeFirstDoc, idsOf]
  | x :: t, i, hnd => by
    have hnd0 : (∀ y ∈ t, ¬y.doc_id = x.doc_id) ∧ (idsOf t).Nodup := by
      simpa [idsOf] using hnd
    by_cases hx : x.doc_id = i
    · simp only [removeFirstDoc, beq_iff_eq]
      rw [if_pos hx]
      simp only [idsOf, List.mem_map, not_exists]
      rintro y ⟨hy, hye⟩
      exact hnd0.1 y hy (by rw [hye, hx])
    · simp only [removeFirstDoc, beq_iff_eq]
      rw [if_neg hx]
      simp only [idsOf, List.map_cons, List.mem_cons, not_or]
      refine ⟨fun he => hx he.symm, ?_⟩
      exact removeFirstDoc_not_mem t i hnd0.2

theorem removeFirstDoc_mem_other : ∀ (l : List DocMeta) (i : String) (x : DocMeta),
    x ∈ l → x.doc_id ≠ i → x ∈ removeFirstDoc l i
  | [], _, _, hx, _ => by simp at hx
  | y :: t, i, x, hx, hne => by
    by_cases hy : y.doc_id = i
    · simp only [removeFirstDoc, beq_iff_eq]
      rw [if_pos hy]
      rcases List.mem_cons.mp hx with rfl | hmem
      · exact absurd hy hne
      · exact hmem
    · simp only [removeFirstDoc, beq_iff_eq]
      rw [if_neg hy]
      rcases List.mem_cons.mp hx with rfl | hmem
      · simp
      · exact List.mem_cons_of_mem _ (removeFirstDoc_mem_other t i x hmem hne)

theorem fsErase_lookup (fs : List (String × Except String (List Chunk)))
    (p : String) : fsLookup (fsErase fs p) p = none := by
  induction fs with
  | nil => rfl
  | cons e rest ih =>
    by_cases he : e.1 = p
    · simp only [fsErase, List.filter_cons]
      rw [if_neg (by simp [he])]
      exact ih
    · simp only [fsErase, List.filter_cons]
      rw [if_pos (by simp [he])]
      show fsLookup (⟨e.1, e.2⟩ :: fsErase rest p) p = none
      simp only [fsLookup]
      rw [if_neg he]
      exact ih

theorem uds_mem_other : ∀ (l : List DocMeta) (i : String) (b : Bool) (x : DocMeta),
    x ∈ l → x.doc_id ≠ i → x ∈ (update_document_status l i b).1
  | [], _, _, _, hx, _ => by simp at hx
  | y :: t, i, b, x, hx, hne => by
    by_cases hy : y.doc_id = i
    · simp only [update_document_status, beq_iff_eq]
      rw [if_pos hy]
      rcases List.mem_cons.mp hx with rfl | hmem
      · exact absurd hy hne
      · exact List.mem_cons_of_mem _ hmem
    · simp only [update_document_status, beq_iff_eq]
      rw [if_neg hy]
      rcases List.mem_cons.mp hx with rfl | hmem
      · simp
      · exact List.mem_cons_of_mem _ (uds_mem_other t i b x hmem hne)

theorem uds_target_flag : ∀ (l : List DocMeta) (i : String),
    (idsOf l).Nodup → ∀ x ∈ (update_document_status l i false).1,
    x.doc_id = i → x.is_active = false
  | [], _, _, x, hx, _ => by simp [update_document_status] at hx
  | y :: t, i, hnd, x, hx, hxi => by
    have hnd0 : (∀ z ∈ t, ¬z.doc_id = y.doc_id) ∧ (idsOf t).Nodup := by
      simpa [idsOf] using hnd
    by_cases hy : y.doc_id = i
    · simp only [update_document_status, beq_iff_eq] at hx
      rw [if_pos hy] at hx
      rcases List.mem_cons.mp hx with rfl | hmem
      · rfl
      · exact absurd (by rw [hxi, ← hy]) (hnd0.1 x hmem)
    · simp only [update_document_status, beq_iff_eq] at hx
      rw [if_neg hy] at hx
      rcases List.mem_cons.mp hx with rfl | hmem
      · exact absurd hxi hy
      · exact uds_target_flag t i hnd0.2 x hmem hxi

/-- C7.  `delete_document`: an unknown doc_id fails (returns `False`,
state untouched); a hard delete (`permanently = True`) reports success,
removes the registry row (the doc_id disappears, every other row
survives) and removes the on-disk index directory; a soft delete reports
success, only flips the row's `is_active` to false, and leaves the other
rows, the filesystem and the log table untouched. -/
theorem delete_document_semantics :
    (∀ (s : RegistryState) (i : String) (b : Bool),
      findFirstDoc s.docs i = none → delete_document s i b = (s, false)) ∧
    (∀ (s : RegistryState) (i : String) (d : DocMeta),
      findFirstDoc s.docs i = some d → (idsOf s.docs).Nodup →
      d.vector_store_path ≠ "" →
      (delete_document s i true).2 = true ∧
      i ∉ idsOf (delete_document s i true).1.docs ∧
      (delete_document s i true).1.docs.length + 1 = s.docs.length ∧
      (∀ x ∈ s.docs, x.doc_id ≠ i → x ∈ (delete_document s i true).1.docs) ∧
      fsLookup (delete_document s i true).1.fs d.vector_store_path = none ∧
      (delete_document s i true).1.logs = s.logs) ∧
    (∀ (s : RegistryState) (i : String) (d : DocMeta),
      findFirstDoc s.docs i = some d →
      (delete_document s i false).2 = true ∧
      (delete_document s i false).1.fs = s.fs ∧
      (delete_document s i false).1.logs = s.logs ∧
      idsOf (delete_document s i false).1.docs = idsOf s.docs ∧
      ((idsOf s.docs).Nodup → ∀ x ∈ (delete_document s i false).1.docs,
        x.doc_id = i → x.is_active = false) ∧
      (∀ x ∈ s.docs, x.doc_id ≠ i → x ∈ (delete_document s i false).1.docs)) := by
  refine ⟨?_, ?_, ?_⟩
  · intro s i b h
    unfold delete_document
    rw [h]
  · intro s i d h hnd hp
    unfold delete_document
    rw [h]
    simp only [if_pos rfl]
    refine ⟨rfl, ?_, removeFirstDoc_length s.docs i d h, ?_, ?_, rfl⟩
    · exact removeFirstDoc_not_mem s.docs i hnd
    · intro x hx hne
      exact removeFirstDoc_mem_other s.docs i x hx hne
    · show fsLookup
        (if (decide (d.vector_store_path ≠ "") &&
            (fsLookup s.fs d.vector_store_path).isSome) = true
         then fsErase s.fs d.vector_store_path else s.fs)
        d.vector_store_path = none
      cases hl : fsLookup s.fs d.vector_store_path with
      | none =>
        rw [if_neg (by simp [hl])]
        exact hl
      | some v =>
        rw [if_pos (by simp [hl, hp])]
        exact fsErase_lookup s.fs d.vector_store_path
  · intro s i d h
    unfold delete_document
    rw [h]
    simp only [Bool.false_eq_true, if_neg]
    refine ⟨rfl, rfl, rfl, uds_ids s.docs i false, ?_, ?_⟩
    · intro hnd x hx hxi
      exact uds_target_flag s.docs i hnd x hx hxi
    · intro x hx hne
      exact uds_mem_other s.docs i false x hx hne

/-- C7 witness: hard-deleting version 1 of the two-upload registry removes
its row and store, and soft delete of version 2 flips only its flag. -/
theorem delete_document_semantics_witness :
    ((delete_document stateAfterTwo "id-v1" true).2 = true ∧
      "id-v1" ∉ idsOf (delete_document stateAfterTwo "id-v1" true).1.docs ∧
      fsLookup (delete_document stateAfterTwo "id-v1" true).1.fs "path-v1" = none) ∧
    (delete_document stateAfterTwo "id-v2" false).2 = true := by
  have hfind : findFirstDoc stateAfterTwo.docs "id-v1" =
      some { mkUploadRow upl1 1 with is_active := false } := by decide
  have h2 := (delete_document_semantics.2.1) stateAfterTwo "id-v1"
    { mkUploadRow upl1 1 with is_active := false } hfind (by decide) (by decide)
  have hfind2 : findFirstDoc stateAfterTwo.docs "id-v2" =
      some (mkUploadRow upl2 2) := by decide
  refine ⟨⟨h2.1, h2.2.1, ?_⟩, ?_⟩
  · exact h2.2.2.2.2.1
  · exact ((delete_document_semantics.2.2) stateAfterTwo "id-v2" _ hfind2).1

theorem strEndsWith_append (a b : String) : strEndsWith (a ++ b) b = true := by
  unfold strEndsWith
  rw [String.data_append]
  simp only [List.length_append, Bool.and_eq_true, decide_eq_true_eq]
  refine ⟨by omega, ?_⟩
  rw [show a.data.length + b.data.length - b.data.length = a.data.length from by omega]
  exact List.drop_left a.data b.data

theorem append_ne_empty_right (a b : String) (h : b.data ≠ []) : a ++ b ≠ "" := by
  intro he
  have := congrArg String.data he
  rw [String.data_append] at this
  have hb : b.data = [] := (List.append_eq_nil.mp this).2
  exact h hb

/-- C5.  Against an absent (`None`) or empty combined index, RETRIEVE
populates empty context and sources without failing, the pipeline still
reaches GENERATE (the completion service is invoked on the prompt built
with the no-documents placeholder), and ANNOTATE appends the fixed
disclaimer recommending document upload instead of a citations block —
so the final answer is non-empty and ends with that disclaimer, whatever
the completion service returns. -/
theorem pipeline_empty_index (complete : String → String)
    (rank : String → List Chunk → List Chunk)
    (vs : Option (List Chunk)) (q user : String) (hist : List (String × String))
    (hvs : vs = none ∨ vs = some [])
    (hrank : ∀ s cs c, c ∈ rank s cs → c ∈ cs) :
    (rag_workflow vs rank complete (initAgentState q user hist)).context = [] ∧
    (rag_workflow vs rank complete (initAgentState q user hist)).sources = [] ∧
    (rag_workflow vs rank complete (initAgentState q user hist)).answer =
      complete (buildPrompt (histRepr hist) noContextPlaceholder q)
        ++ noDocsDisclaimer ∧
    (rag_workflow vs rank complete (initAgentState q user hist)).answer ≠ "" ∧
    strEndsWith (rag_workflow vs rank complete (initAgentState q user hist)).answer
      noDocsDisclaimer = true := by
  have hret : retrieve_documents vs rank (initAgentState q user hist) =
      initAgentState q user hist := by
    rcases hvs with rfl | rfl
    · rfl
    · have hr : rank q [] = [] := by
        apply List.eq_nil_iff_forall_not_mem.mpr
        intro c hc
        exact absurd (hrank _ [] c hc) (List.not_mem_nil c)
      unfold retrieve_documents
      simp [hr, initAgentState]
  have hw : rag_workflow vs rank complete (initAgentState q user hist) =
      add_source_information (generate_answer complete (initAgentState q user hist)) := by
    unfold rag_workflow
    rw [hret]
  have hgen : generate_answer complete (initAgentState q user hist) =
      { initAgentState q user hist with
        answer := complete (buildPrompt (histRepr hist) noContextPlaceholder q),
        need_more_info := strContainsSub
          (complete (buildPrompt (histRepr hist) noContextPlaceholder q))
          noRelevantMarker } := by
    rfl
  have hann : rag_workflow vs rank complete (initAgentState q user hist) =
      { initAgentState q user hist with
        answer := complete (buildPrompt (histRepr hist) noContextPlaceholder q)
          ++ noDocsDisclaimer,
        need_more_info := strContainsSub
          (complete (buildPrompt (histRepr hist) noContextPlaceholder q))
          noRelevantMarker } := by
    rw [hw, hgen]
    rfl
  rw [hann]
  refine ⟨rfl, rfl, rfl, ?_, ?_⟩
  · exact append_ne_empty_right _ _ (by decide)
  · exact strEndsWith_append _ _

/-- C5 witness: the theorem at a concrete question with no vectorstore and
a concrete completion function. -/
theorem pipeline_empty_index_witness :
    (rag_workflow none cRank cComplete (initAgentState "휴가 정책은?" "alice" [])).answer =
      cComplete (buildPrompt (histRepr []) noContextPlaceholder "휴가 정책은?")
        ++ noDocsDisclaimer ∧
    (rag_workflow none cRank cComplete (initAgentState "휴가 정책은?" "alice" [])).answer
      ≠ "" := by
  have h := pipeline_empty_index cComplete cRank none "휴가 정책은?" "alice" []
    (Or.inl rfl) (by intro s cs c hc; simp [cRank] at hc)
  exact ⟨h.2.2.1, h.2.2.2.1⟩

/-- C9.  When the workflow invocation raises (Except.error), the caller
returns the fixed apology string and makes exactly one invocation — no
retry, even when a second attempt would have succeeded (the rest of the
outcome stream is ignored); the ungrounded fallback branch behaves the
same with its own fixed apology. -/
theorem generate_response_apology :
    (∀ (e : String) (rest : List (Except String AgentState))
      (ps : List (Except String String)),
      generate_response true true (Except.error e :: rest) ps = (ragApology, 1)) ∧
    (∀ (e : String) (rs : List (Except String AgentState))
      (rest : List (Except String String)),
      generate_response false true rs (Except.error e :: rest) =
        (plainApology, 1)) := by
  exact ⟨fun e rest ps => rfl, fun e rs rest => rfl⟩

/-- C10.  The optimizer's query cache and rolling window are bounded: a
hit returns the cached result with no underlying search and no state
change; a search never grows the cache beyond 100 entries nor the recent
queries beyond 5; and inserting a fresh key into a full cache of 100
evicts the oldest-inserted entry (Python dict order: the first entry). -/
theorem rollWindow_length (rq : List String) (q : String)
    (h : rq.length ≤ 5) : (rollWindow rq q).length ≤ 5 := by
  unfold rollWindow
  by_cases hgt : 5 < (rq ++ [q]).length
  · rw [if_pos hgt]
    simp only [List.length_drop, List.length_append, List.length_cons,
      List.length_nil]
    omega
  · rw [if_neg hgt]
    simp only [List.length_append, List.length_cons, List.length_nil] at hgt ⊢
    omega

theorem boundedInsert_length (qc : List (String × List SearchDoc))
    (key : String) (res : List SearchDoc) (h : qc.length ≤ 100) :
    (boundedInsert qc key res).length ≤ 100 := by
  unfold boundedInsert
  by_cases hgt : 100 < (qc ++ [(key, res)]).length
  · rw [if_pos hgt]
    simp only [List.length_drop, List.length_append, List.length_cons,
      List.length_nil]
    omega
  · rw [if_neg hgt]
    simp only [List.length_append, List.length_cons, List.length_nil] at hgt ⊢
    omega

theorem boundedInsert_evict (qc : List (String × List SearchDoc))
    (key : String) (res : List SearchDoc) (h : qc.length = 100) :
    boundedInsert qc key res = qc.drop 1 ++ [(key, res)] := by
  unfold boundedInsert
  rw [if_pos (by simp [h])]
  rw [List.drop_append_of_le_length (by omega)]

/-- C10.  The optimizer's query cache and rolling window are bounded: a
hit returns the cached result with no underlying search and no state
change; a search never grows the cache beyond 100 entries nor the recent
queries beyond 5; and inserting a fresh key into a full cache of 100
evicts the oldest-inserted entry (Python dict order: the first entry). -/
theorem optimizer_search_cache_bounds
    (simSearch : Option String → Option (List (String × String)) → Nat → List SearchDoc)
    (st : SearchState) (q : String)
    (filters : Option (List (String × String))) (k : Nat) :
    (∀ res, cacheLookup st.query_cache (cacheKey q filters k) = some res →
      optimizerSearch simSearch st q filters k = (res, st, 0)) ∧
    (st.query_cache.length ≤ 100 →
      (optimizerSearch simSearch st q filters k).2.1.query_cache.length ≤ 100) ∧
    (st.recent_queries.length ≤ 5 →
      (optimizerSearch simSearch st q filters k).2.1.recent_queries.length ≤ 5) ∧
    (cacheLookup st.query_cache (cacheKey q filters k) = none →
      st.query_cache.length = 100 →
      ∃ res, (optimizerSearch simSearch st q filters k).2.1.query_cache =
        st.query_cache.drop 1 ++ [(cacheKey q filters k, res)]) := by
  refine ⟨?_, ?_, ?_, ?_⟩
  · intro res hres
    unfold optimizerSearch
    rw [hres]
  · intro hlen
    unfold optimizerSearch
    cases hc : cacheLookup st.query_cache (cacheKey q filters k) with
    | some res => exact hlen
    | none =>
      exact boundedInsert_length st.query_cache _ _ hlen
  · intro hlen
    unfold optimizerSearch
    cases hc : cacheLookup st.query_cache (cacheKey q filters k) with
    | some res => exact hlen
    | none =>
      exact rollWindow_length st.recent_queries q hlen
  · intro hc hlen
    unfold optimizerSearch
    rw [hc]
    exact ⟨improved_vector_search simSearch q
      (some (String.intercalate " " (rollWindow st.recent_queries q))) filters k,
      boundedInsert_evict st.query_cache _ _ hlen⟩

/-- C10 witness: a repeated (query, filters, k) triple hits the cache and
returns the stored result with zero searches and unchanged state. -/
theorem optimizer_search_cache_bounds_witness :
    optimizerSearch w10sim w10state "질문" none 5 = ([w10doc], w10state, 0) := by
  exact (optimizer_search_cache_bounds w10sim w10state "질문" none 5).1 [w10doc]
    (by simp [w10state, w10key, cacheLookup])

theorem assocStr_ne_nil {fl : List (String × String)} {k : String} {c : String}
    (h : assocStr fl k = some c) : fl.isEmpty = false := by
  cases fl with
  | nil => simp [assocStr] at h
  | cons e rest => rfl

/-- C4.  The re-rank composite score is exactly the product
`1.2^[category match] × (1 + 0.05·version) × (1 + 0.1·keyword matches)`
starting from base 1.0, computed here in exact rational arithmetic; on the
spec's example — C1 (category "HR", version 3, 2 keyword matches) versus
C2 (category "Finance", version 1, 0 matches) under filter category "HR" —
the scores are 1.656 and 1.05, so C1 ranks first even when the similarity
search returned it second; equal-score candidates keep their original
rank (stable sort) and the result is truncated to `k`. -/
theorem improved_vector_search_rerank :
    (∀ (fl : List (String × String)) (q : String) (d : SearchDoc)
      (cat : String) (v : Nat),
      assocStr fl "category" = some cat →
      assocMeta d.metadata "category" = some (MetaVal.str cat) →
      assocMeta d.metadata "version" = some (MetaVal.num v) →
      d.metadata ≠ [] →
      compositeScore (some fl) q d =
        1.2 * (1 + (v : ℚ) * 0.05) *
          (1 + (countKeywordMatches q d.page_content : ℚ) * 0.1)) ∧
    (∀ (filters : Option (List (String × String))) (q : String) (d : SearchDoc)
      (v : Nat),
      categoryMatch filters d.metadata = false →
      assocMeta d.metadata "version" = some (MetaVal.num v) →
      d.metadata ≠ [] →
      compositeScore filters q d =
        (1 + (v : ℚ) * 0.05) *
          (1 + (countKeywordMatches q d.page_content : ℚ) * 0.1)) ∧
    compositeScore fEx qEx c1doc = 1.656 ∧
    compositeScore fEx qEx c2doc = 1.05 ∧
    improved_vector_search (fun _ _ _ => [c2doc, c1doc]) qEx none fEx 5 =
      [c1doc, c2doc] ∧
    improved_vector_search (fun _ _ _ => [tieA, tieB]) "short tie" none none 5 =
      [tieA, tieB] ∧
    improved_vector_search (fun _ _ _ => [c2doc, c1doc]) qEx none fEx 1 =
      [c1doc] := by
  have hck1 : countKeywordMatches qEx c1doc.page_content = 2 := by decide
  have hck2 : countKeywordMatches qEx c2doc.page_content = 0 := by decide
  have hcm1 : categoryMatch fEx c1doc.metadata = true := by decide
  have hcm2 : categoryMatch fEx c2doc.metadata = false := by decide
  have hav1 : assocMeta c1doc.metadata "version" = some (MetaVal.num 3) := by decide
  have hav2 : assocMeta c2doc.metadata "version" = some (MetaVal.num 1) := by decide
  have hne1 : c1doc.metadata.isEmpty = false := by decide
  have hne2 : c2doc.metadata.isEmpty = false := by decide
  have hs1 : compositeScore fEx qEx c1doc = 1.656 := by
    simp [compositeScore, hcm1, hav1, hck1, hne1]
    norm_num
  have hs2 : compositeScore fEx qEx c2doc = 1.05 := by
    simp [compositeScore, hcm2, hav2, hck2, hne2]
    norm_num
  refine ⟨?_, ?_, hs1, hs2, ?_, ?_, ?_⟩
  · intro fl q d cat v hfl hmd hv hne
    have hflne : fl.isEmpty = false := assocStr_ne_nil hfl
    have hcm : categoryMatch (some fl) d.metadata = true := by
      simp [categoryMatch, hflne, hfl, hmd]
    have hnem : d.metadata.isEmpty = false := by
      cases hm : d.metadata with
      | nil => exact absurd hm hne
      | cons a t => rfl
    simp [compositeScore, hcm, hv, hnem]
  · intro filters q d v hcm hv hne
    have hnem : d.metadata.isEmpty = false := by
      cases hm : d.metadata with
      | nil => exact absurd hm hne
      | cons a t => rfl
    simp [compositeScore, hcm, hv, hnem]
  · simp [improved_vector_search, enhance_query, sortScoredDesc, insertScoredDesc,
      hs1, hs2]
    norm_num
  · have hk1 : countKeywordMatches "short tie" "alpha" = 0 := by decide
    have hk2 : countKeywordMatches "short tie" "beta" = 0 := by decide
    have ha : compositeScore none "short tie" tieA = 1 := by
      simp [compositeScore, tieA, hk1]
    have hb : compositeScore none "short tie" tieB = 1 := by
      simp [compositeScore, tieB, hk2]
    simp [improved_vector_search, enhance_query, sortScoredDesc, insertScoredDesc,
      ha, hb]
  · simp [improved_vector_search, enhance_query, sortScoredDesc, insertScoredDesc,
      hs1, hs2]
    norm_num

/-- C4 witness: the general score formula applied to the concrete example
candidate C1 under filter category "HR". -/
theorem improved_vector_search_rerank_witness :
    compositeScore (some [("category", "HR")]) qEx c1doc =
      1.2 * (1 + (3 : ℚ) * 0.05) *
        (1 + (countKeywordMatches qEx c1doc.page_content : ℚ) * 0.1) := by
  exact improved_vector_search_rerank.1 [("category", "HR")] qEx c1doc "HR" 3
    (by decide) (by decide) (by decide) (by decide)

/-- C8 (code_bug).  `enhance_query` as written returns the query unchanged
only when the context is falsy; with any non-empty context it falls off
the end and returns Python `None` — including for queries using the
`category:` / `filename:` / `type:` filter syntax, which the displaced
dead code at performance_optimizer.py lines 360-361 was meant to pass
through verbatim.  Consequently `improved_vector_search` hands `None`,
not the verbatim query, to the similarity search. -/
theorem enhance_query_bypass_broken :
    (∀ q, enhance_query q none = some q) ∧
    (∀ q, enhance_query q (some "") = some q) ∧
    enhance_query "category:HR 휴가 규정" (some "지난 대화 맥락") = none ∧
    improved_vector_search
      (fun eq _ _ => if eq = some "category:HR 휴가 규정" then [c1doc] else [])
      "category:HR 휴가 규정" (some "지난 대화 맥락") none 5 = [] := by
  refine ⟨fun q => rfl, fun q => ?_, by decide, by decide⟩
  simp [enhance_query]
